import Mathlib

/-!
A verification development for the shared traversal-and-query core of the
gocp Go source-analysis toolkit.  The Go functions of `common.go`, `ast.go`
and `tool_analyze_go_idioms.go` are shallowly embedded as executable Lean
definitions: Go strings become `String`, Go slices become `List`, Go `error`
results become `Option String` (with `none` for `nil`), the `go/ast`
expression grammar becomes the inductive `Expr`, and the filesystem seen by
`filepath.WalkDir` becomes an explicit list of directory entries.
Positions (line/column reporting via `token.FileSet`) are orthogonal to the
properties proved here and are not modelled.
-/

namespace Gocp

/-- Character-list test: the first list is a leading segment of the second. -/
def charsLeadingOf : List Char → List Char → Bool
  | [], _ => true
  | _ :: _, [] => false
  | a :: as, b :: bs => a == b && charsLeadingOf as bs

/-- Character-list test: the first list occurs contiguously inside the second. -/
def charsInfixOf (needle : List Char) : List Char → Bool
  | [] => needle.isEmpty
  | b :: bs => charsLeadingOf needle (b :: bs) || charsInfixOf needle bs

/-- Go `strings.Contains s sub`: `sub` occurs as a contiguous substring of
`s`.  Modelled at the character level (equivalent to Go's byte-level check
on valid UTF-8 input). -/
def goContains (s sub : String) : Bool := charsInfixOf sub.toList s.toList

/-- Go `strings.HasSuffix s suffix`, i.e. `s` ends with the given text
(a suffix is a leading segment of the reversal). -/
def goHasSuffix (s suffixStr : String) : Bool :=
  charsLeadingOf suffixStr.toList.reverse s.toList.reverse

/-- Go `strings.Join parts sep` (argument order as in `strings.Join`'s
`sep`-last form flipped for convenience): concatenate with `sep` between
consecutive elements. -/
def goJoin (sep : String) : List String → String
  | [] => ""
  | [part] => part
  | part :: rest => part ++ sep ++ goJoin sep rest

/-- Go `strings.ToLower`, restricted to its ASCII fragment (the identifier
patterns this toolkit matches are ASCII). -/
def goToLower (s : String) : String := String.mk (s.toList.map Char.toLower)

/-- Go `unicode.IsSpace`, restricted to its ASCII fragment: space, tab,
newline, vertical tab, form feed, carriage return. -/
def goIsSpace (c : Char) : Bool :=
  c == ' ' || c == '\t' || c == '\n' || c == Char.ofNat 11 || c == Char.ofNat 12 || c == '\r'

/-- Go `strings.TrimSpace`: drop whitespace from both ends. -/
def goTrimSpace (s : String) : String :=
  String.mk (((s.toList.dropWhile goIsSpace).reverse.dropWhile goIsSpace).reverse)

/-- Split a character list at every occurrence of a separator character;
always returns one (possibly empty) segment more than the number of
separators.  Models Go `strings.Split` with a one-character separator. -/
def splitOnChar (sep : Char) : List Char → List (List Char)
  | [] => [[]]
  | c :: rest =>
      match splitOnChar sep rest with
      | [] => [[]]
      | seg :: segs => if c == sep then [] :: seg :: segs else (c :: seg) :: segs

/-- Go `strings.Split s "\n"`. -/
def splitLines (l : List Char) : List (List Char) := splitOnChar '\n' l

/-- Go `strings.TrimPrefix s pre`: drop a leading occurrence of `pre`,
or return `s` unchanged when it does not lead. -/
def goTrimPre (s pre : String) : String :=
  if charsLeadingOf pre.toList s.toList then String.mk (s.toList.drop pre.toList.length)
  else s

/-- Go `strings.Trim s "\""`: drop double-quote characters from both ends
(used on import path literals). -/
def goTrimQuotes (s : String) : String :=
  String.mk (((s.toList.dropWhile (· == '"')).reverse.dropWhile (· == '"')).reverse)

/-- Go `filepath.Dir` on the slash-separated relative paths produced by the
walker: everything before the last separator, or `"."` for a bare file
name (path cleaning of `filepath.Dir` is not modelled). -/
def goDir (p : String) : String :=
  let parts := splitOnChar '/' p.toList
  if parts.length ≤ 1 then "." else goJoin "/" (parts.dropLast.map String.mk)

/-- Go `filepath.Base` on slash-separated paths: the part after the last
separator. -/
def goBase (p : String) : String := String.mk ((splitOnChar '/' p.toList).getLastD [])

/-- Channel direction of an `ast.ChanType` (`ast.SEND`, `ast.RECV`, or both). -/
inductive ChanDir where
  | send
  | recv
  | both
deriving Repr, DecidableEq

mutual

/-- The `go/ast` expression kinds relevant to the toolkit.  The nine kinds
explicitly handled by `exprToString` get their own constructors;
`structType` is an expression kind the stringifier does *not* handle (but
`getTypeInfo` does), and `otherExpr` stands for every remaining
`ast.Expr` kind, carrying the Go dynamic type name (such as
`"*ast.CallExpr"`) that `fmt.Sprintf("%T", expr)` would print for it. -/
inductive Expr where
  | ident (name : String)
  | star (x : Expr)
  | selector (x : Expr) (sel : String)
  | arrayType (len : Option Expr) (elt : Expr)
  | mapType (key : Expr) (value : Expr)
  | interfaceType (methods : FieldList)
  | funcType (ft : FuncTy)
  | chanType (dir : ChanDir) (value : Expr)
  | basicLit (value : String)
  | structType (fields : FieldList)
  | otherExpr (goTypeName : String)

/-- An `ast.FuncType`: parameter and result field lists. -/
inductive FuncTy where
  | mk (params : FieldList) (results : FieldList)

/-- An `ast.FieldList` (the slice `fl.List` of an `*ast.FieldList`; a nil
pointer and an empty slice are both `nil`, matching the Go code, which
treats them alike). -/
inductive FieldList where
  | nil
  | cons (f : Field) (rest : FieldList)

/-- An `ast.Field`: a (possibly empty) list of names, a type expression,
and an optional struct tag (`Field.Tag`, `none` when the Go pointer is nil). -/
inductive Field where
  | mk (names : List String) (ty : Expr) (tag : Option String)

end

/-- Whether a field list is empty (`fl == nil || len(fl.List) == 0`). -/
def FieldList.isEmpty : FieldList → Bool
  | .nil => true
  | .cons _ _ => false

/-- Names of a field. -/
def Field.names : Field → List String
  | .mk ns _ _ => ns

/-- Type expression of a field. -/
def Field.ty : Field → Expr
  | .mk _ t _ => t

mutual

/-- `exprToString` from `common.go` (lines 59-95): renders a type expression
as text; every expression kind without an explicit case falls through to the
default branch, which returns the literal `"unknown"`. -/
def exprToString : Expr → String
  | .ident name => name
  | .star x => "*" ++ exprToString x
  | .selector x sel => exprToString x ++ "." ++ sel
  | .arrayType none elt => "[]" ++ exprToString elt
  | .arrayType (some len) elt => "[" ++ exprToString len ++ "]" ++ exprToString elt
  | .mapType key value => "map[" ++ exprToString key ++ "]" ++ exprToString value
  | .interfaceType methods =>
      if methods.isEmpty then "interface\x7b\x7d" else "interface\x7b...\x7d"
  | .funcType ft => funcSignature ft
  | .chanType .send value => "chan<- " ++ exprToString value
  | .chanType .recv value => "<-chan " ++ exprToString value
  | .chanType .both value => "chan " ++ exprToString value
  | .basicLit value => value
  | .structType _ => "unknown"
  | .otherExpr _ => "unknown"

/-- `funcSignature` from `common.go` (lines 97-105): `func(params)` with the
result list appended after a space when it is non-empty. -/
def funcSignature : FuncTy → String
  | .mk params results =>
    let ps := fieldListToString params
    let rs := fieldListToString results
    if rs = "" then "func(" ++ ps ++ ")"
    else "func(" ++ ps ++ ") " ++ rs

/-- `fieldListToString` from `common.go` (lines 107-128): a nil or empty
field list renders as `""`; a single rendered part containing no space
renders bare; anything else renders parenthesized and comma-joined.  The
`parts` of the whole list are the head field's parts followed by the
parts of the remaining fields (the Go code builds them in one loop). -/
def fieldListToString : FieldList → String
  | .nil => ""
  | .cons f rest =>
    let parts := fieldParts f ++ fieldListParts rest
    if parts.length == 1 && !(goContains (parts.headD "") " ") then parts.headD ""
    else "(" ++ goJoin ", " parts ++ ")"

/-- One iteration of the `parts` accumulation loop inside
`fieldListToString`: an unnamed field contributes its bare type, a named
field contributes one `"name type"` pair per name. -/
def fieldParts : Field → List String
  | .mk names ty _tag =>
      if names.isEmpty then [exprToString ty]
      else names.map (fun n => n ++ " " ++ exprToString ty)

/-- The full `parts` list of a field list. -/
def fieldListParts : FieldList → List String
  | .nil => []
  | .cons f rest => fieldParts f ++ fieldListParts rest

end

/-- The Go dynamic type name of each modelled expression kind, i.e. what
`fmt.Sprintf("%T", expr)` prints for it. -/
def goDynamicTypeName : Expr → String
  | .ident _ => "*ast.Ident"
  | .star _ => "*ast.StarExpr"
  | .selector _ _ => "*ast.SelectorExpr"
  | .arrayType _ _ => "*ast.ArrayType"
  | .mapType _ _ => "*ast.MapType"
  | .interfaceType _ => "*ast.InterfaceType"
  | .funcType _ => "*ast.FuncType"
  | .chanType _ _ => "*ast.ChanType"
  | .basicLit _ => "*ast.BasicLit"
  | .structType _ => "*ast.StructType"
  | .otherExpr goTypeName => goTypeName

mutual

/-- `exprToString` from `ast.go` (lines 451-487): identical to the
`common.go` version except that the default branch returns
`fmt.Sprintf("%T", expr)` — the node's Go dynamic type name — instead of
the literal `"unknown"`. -/
def exprToStringAst : Expr → String
  | .ident name => name
  | .star x => "*" ++ exprToStringAst x
  | .selector x sel => exprToStringAst x ++ "." ++ sel
  | .arrayType none elt => "[]" ++ exprToStringAst elt
  | .arrayType (some len) elt => "[" ++ exprToStringAst len ++ "]" ++ exprToStringAst elt
  | .mapType key value => "map[" ++ exprToStringAst key ++ "]" ++ exprToStringAst value
  | .interfaceType methods =>
      if methods.isEmpty then "interface\x7b\x7d" else "interface\x7b...\x7d"
  | .funcType ft => funcSignatureAst ft
  | .chanType .send value => "chan<- " ++ exprToStringAst value
  | .chanType .recv value => "<-chan " ++ exprToStringAst value
  | .chanType .both value => "chan " ++ exprToStringAst value
  | .basicLit value => value
  | .structType fields => goDynamicTypeName (.structType fields)
  | .otherExpr goTypeName => goDynamicTypeName (.otherExpr goTypeName)

/-- `funcSignature` from `ast.go` (lines 489-497), built on the `ast.go`
stringifier. -/
def funcSignatureAst : FuncTy → String
  | .mk params results =>
    let ps := fieldListToStringAst params
    let rs := fieldListToStringAst results
    if rs = "" then "func(" ++ ps ++ ")"
    else "func(" ++ ps ++ ") " ++ rs

/-- `fieldListToString` from `ast.go` (lines 499-520), built on the
`ast.go` stringifier. -/
def fieldListToStringAst : FieldList → String
  | .nil => ""
  | .cons f rest =>
    let parts := fieldPartsAst f ++ fieldListPartsAst rest
    if parts.length == 1 && !(goContains (parts.headD "") " ") then parts.headD ""
    else "(" ++ goJoin ", " parts ++ ")"

/-- One iteration of the `parts` loop of the `ast.go` `fieldListToString`. -/
def fieldPartsAst : Field → List String
  | .mk names ty _tag =>
      if names.isEmpty then [exprToStringAst ty]
      else names.map (fun n => n ++ " " ++ exprToStringAst ty)

/-- The full `parts` list of the `ast.go` `fieldListToString`. -/
def fieldListPartsAst : FieldList → List String
  | .nil => []
  | .cons f rest => fieldPartsAst f ++ fieldListPartsAst rest

end

/-- The window computation inside `extractContext` (`common.go` lines
136-143): `start := line - 2` clamped below at `0`, `end := line + 1`
clamped above at the line count. -/
def contextWindow (lineCount line : Int) : Int × Int :=
  let start := if line - 2 < 0 then 0 else line - 2
  let stop := if line + 1 > lineCount then lineCount else line + 1
  (start, stop)

/-- `extractContext` from `common.go` (lines 130-147): split the source on
newlines, return `""` for an out-of-range (1-based) line, otherwise join
the clamped window of one line before through one line after the target
line and trim surrounding whitespace. -/
def extractContext (src : String) (line : Int) : String :=
  let lines := (splitLines src.toList).map String.mk
  if line ≤ 0 || line > (lines.length : Int) then ""
  else
    let w := contextWindow (lines.length : Int) line
    goTrimSpace (goJoin "\n" ((lines.drop w.1.toNat).take (w.2 - w.1).toNat))

/-- `matchesPattern` from `ast.go` (lines 356-363): an empty pattern
matches everything; otherwise a case-insensitive substring check. -/
def matchesPattern (name pattern : String) : Bool :=
  if pattern = "" then true
  else goContains (goToLower name) (goToLower pattern)

/-- Go `error` values are modelled as messages; `Option GoError` stands for
a possibly-nil `error`. -/
abbrev GoError := String

/-- `ast.IsExported`: the name starts with an upper-case letter (ASCII
fragment of Go's `unicode.IsUpper`); false for an empty name. -/
def isExported (name : String) : Bool :=
  match name.toList with
  | [] => false
  | c :: _ => c.isUpper

/-- The token of an `ast.GenDecl` (`decl.Tok`). -/
inductive GenTok where
  | constTok
  | varTok
  | typeTok
  | importTok
deriving DecidableEq, Repr

/-- An `ast.Spec` inside a `GenDecl`, keeping the parts the analyzers
consume: a type declaration's name and right-hand type, or a const/var
spec's names. -/
inductive DeclSpec where
  | typeSpec (name : String) (ty : Expr)
  | valueSpec (names : List String)

/-- A top-level declaration of a parsed file.  `funcDecl` keeps the name,
the receiver field list (`none` when `fn.Recv` is nil) and the function
type; `genDecl` keeps its token and specs. -/
inductive Decl where
  | funcDecl (name : String) (recv : Option FieldList) (ftype : FuncTy)
  | genDecl (tok : GenTok) (specs : List DeclSpec)

/-- A parsed `*ast.File`: package name, raw import path literals
(`imp.Path.Value`, still quoted), and declarations.  Statements inside
function bodies are not modelled — the analyzers embedded here only
consume declaration-level structure. -/
structure GoFile where
  pkgName : String
  imports : List String
  decls : List Decl

/-- One entry the recursive directory walk hands to `filepath.WalkDir`'s
callback, in traversal order: its path, whether it is a directory, the
traversal error passed for it (non-nil on e.g. a readdir failure), the
result of `os.ReadFile` (`none` = read error) and of `parser.ParseFile`
(`none` = parse error). -/
structure FsEntry where
  path : String
  isDir : Bool
  walkErr : Option GoError
  readResult : Option String
  parseResult : Option GoFile

/-- `walkGoFiles` from `common.go` (lines 33-57) / `ast.go` (lines 69-93),
over an explicit entry list.  Closure state of the Go visitor is threaded
explicitly as `s : σ`; the function returns the final state with the error
`filepath.WalkDir` returns.  A traversal error aborts immediately;
non-`.go` paths, `vendor/` paths, directories, unreadable files and
unparsable files are skipped; a visitor error aborts the rest of the
walk. -/
def walkGoFiles (entries : List FsEntry)
    (visitor : String → String → GoFile → σ → σ × Option GoError) (s : σ) :
    σ × Option GoError :=
  match entries with
  | [] => (s, none)
  | e :: rest =>
    match e.walkErr with
    | some err => (s, some err)
    | none =>
      if e.isDir || !(goHasSuffix e.path ".go") || goContains e.path "vendor/" then
        walkGoFiles rest visitor s
      else
        match e.readResult with
        | none => walkGoFiles rest visitor s
        | some src =>
          match e.parseResult with
          | none => walkGoFiles rest visitor s
          | some file =>
            match visitor e.path src file s with
            | (s', some err) => (s', some err)
            | (s', none) => walkGoFiles rest visitor s'

/-- The paths at which `walkGoFiles` invokes its visitor, in order: the
same control flow as `walkGoFiles`, recording each visitor call. -/
def walkVisited (entries : List FsEntry)
    (visitor : String → String → GoFile → σ → σ × Option GoError) (s : σ) :
    List String :=
  match entries with
  | [] => []
  | e :: rest =>
    match e.walkErr with
    | some _ => []
    | none =>
      if e.isDir || !(goHasSuffix e.path ".go") || goContains e.path "vendor/" then
        walkVisited rest visitor s
      else
        match e.readResult with
        | none => walkVisited rest visitor s
        | some src =>
          match e.parseResult with
          | none => walkVisited rest visitor s
          | some file =>
            match visitor e.path src file s with
            | (_, some _) => [e.path]
            | (s', none) => e.path :: walkVisited rest visitor s'

/-- A reported symbol (`ast.go` lines 14-22); source positions are not
modelled. -/
structure Symbol where
  name : String
  type : String
  pkg : String
  file : String
  exported : Bool
deriving DecidableEq, Repr

/-- The `ast.Inspect` body of `findSymbols` (`ast.go` lines 105-170) for
one declaration: functions, type specs (classified struct / interface /
type) and const/var spec names matching the pattern. -/
def symbolsOfDecl (path pkg pattern : String) : Decl → List Symbol
  | .funcDecl name _ _ =>
      if matchesPattern name pattern then
        [⟨name, "function", pkg, path, isExported name⟩]
      else []
  | .genDecl tok specs =>
      specs.flatMap fun spec =>
        match spec with
        | .typeSpec name ty =>
            if matchesPattern name pattern then
              [⟨name,
                (match ty with
                 | .interfaceType _ => "interface"
                 | .structType _ => "struct"
                 | _ => "type"),
                pkg, path, isExported name⟩]
            else []
        | .valueSpec names =>
            names.flatMap fun n =>
              if matchesPattern n pattern then
                [⟨n, (if tok = .constTok then "constant" else "variable"),
                  pkg, path, isExported n⟩]
              else []

/-- The visitor closure of `findSymbols` (`ast.go` lines 98-173): skip
test files unless the pattern mentions `"Test"`, otherwise append the
file's matching symbols. -/
def findSymbolsVisitor (pattern : String) (path : String) (_src : String)
    (file : GoFile) (symbols : List Symbol) : List Symbol × Option GoError :=
  if goHasSuffix path "_test.go" && !(goContains pattern "Test") then (symbols, none)
  else (symbols ++ file.decls.flatMap (symbolsOfDecl path file.pkgName pattern), none)

/-- `findSymbols` from `ast.go` (lines 95-176): walk the tree accumulating
matching symbols. -/
def findSymbols (entries : List FsEntry) (pattern : String) :
    List Symbol × Option GoError :=
  walkGoFiles entries (findSymbolsVisitor pattern) []

/-- Stated from the claim for C10: `findSymbols` with the test-file skip
removed, used to express "when the pattern contains Test, symbols from
test files are included like any others". -/
def findSymbolsAllVisitor (pattern : String) (path : String) (_src : String)
    (file : GoFile) (symbols : List Symbol) : List Symbol × Option GoError :=
  (symbols ++ file.decls.flatMap (symbolsOfDecl path file.pkgName pattern), none)

/-- A struct field description (`ast.go` lines 37-42); positions are not
modelled.  `tag` is `""` when the field has no tag, as in the Go code. -/
structure FieldInfo where
  name : String
  type : String
  tag : String
  exported : Bool
deriving DecidableEq, Repr

/-- A method description (`ast.go` lines 44-49); `receiver` is `""` for
interface methods. -/
structure MethodInfo where
  name : String
  signature : String
  receiver : String
  exported : Bool
deriving DecidableEq, Repr

/-- The type description `getTypeInfo` builds (`ast.go` lines 24-35);
positions are not modelled.  `ifaceMethods` is the Go `Interface` field. -/
structure TypeInfo where
  name : String
  pkg : String
  file : String
  kind : String
  fields : List FieldInfo
  methods : List MethodInfo
  embedded : List String
  ifaceMethods : List MethodInfo
  underlying : String
deriving DecidableEq, Repr

/-- `extractFields` from `ast.go` (lines 365-395): one `FieldInfo` per
name, or a single anonymous entry (marked exported) for an embedded
field. -/
def extractFields : FieldList → List FieldInfo
  | .nil => []
  | .cons (.mk names ty tag) rest =>
      (let fieldType := exprToString ty
       let tagStr := tag.getD ""
       if names.isEmpty then [⟨"", fieldType, tagStr, true⟩]
       else names.map fun n => ⟨n, fieldType, tagStr, isExported n⟩) ++
        extractFields rest

/-- `extractEmbedded` from `ast.go` (lines 397-407): the stringified types
of the unnamed (embedded) fields. -/
def extractEmbedded : FieldList → List String
  | .nil => []
  | .cons (.mk names ty _) rest =>
      (if names.isEmpty then [exprToString ty] else []) ++ extractEmbedded rest

/-- `extractInterfaceMethods` from `ast.go` (lines 409-426): one
`MethodInfo` per named interface method; embedded interfaces (unnamed
fields) are skipped. -/
def extractInterfaceMethods : FieldList → List MethodInfo
  | .nil => []
  | .cons (.mk names ty _) rest =>
      (if names.isEmpty then []
       else names.map fun n => (⟨n, exprToString ty, "", isExported n⟩ : MethodInfo)) ++
        extractInterfaceMethods rest

/-- The `for _, recv := range fn.Recv.List` loop of `extractMethods`. -/
def extractMethodsOfRecv (name : String) (ftype : FuncTy) (typeName : String) :
    FieldList → List MethodInfo
  | .nil => []
  | .cons rf rest =>
      (let recvType := exprToString rf.ty
       if goContains recvType typeName then
         [(⟨name, funcSignature ftype, recvType, isExported name⟩ : MethodInfo)]
       else []) ++ extractMethodsOfRecv name ftype typeName rest

/-- `extractMethods` from `ast.go` (lines 428-449): every function
declaration whose receiver type's rendering contains the type name. -/
def extractMethods (file : GoFile) (typeName : String) : List MethodInfo :=
  file.decls.flatMap fun d =>
    match d with
    | .funcDecl name (some recvFields) ftype =>
        extractMethodsOfRecv name ftype typeName recvFields
    | _ => []

/-- The `TypeInfo` that `getTypeInfo`'s visitor builds for a matching type
spec (`ast.go` lines 195-227): the kind switch over the spec's right-hand
type, then the method table. -/
def typeInfoFor (path : String) (file : GoFile) (typeName : String) (ty : Expr) : TypeInfo :=
  let base : TypeInfo :=
    { name := typeName, pkg := file.pkgName, file := path, kind := "",
      fields := [], methods := extractMethods file typeName, embedded := [],
      ifaceMethods := [], underlying := "" }
  match ty with
  | .structType fields =>
      { base with kind := "struct", fields := extractFields fields,
                  embedded := extractEmbedded fields }
  | .interfaceType methods =>
      { base with kind := "interface", ifaceMethods := extractInterfaceMethods methods }
  | .ident n => { base with kind := "alias", underlying := n }
  | .selector x sel =>
      { base with kind := "alias",
                  underlying := (match x with | .ident xn => xn ++ "." ++ sel | _ => "") }
  | _ => { base with kind := "other" }

/-- First type spec with the given name in a spec list. -/
def findTypeSpec (typeName : String) : List DeclSpec → Option Expr
  | [] => none
  | .typeSpec n ty :: rest =>
      if n = typeName then some ty else findTypeSpec typeName rest
  | .valueSpec _ :: rest => findTypeSpec typeName rest

/-- First type spec with the given name across a file's declarations, in
declaration order (the order `ast.Inspect` reaches them). -/
def findTypeDecl (typeName : String) : List Decl → Option Expr
  | [] => none
  | .genDecl _ specs :: rest =>
      (match findTypeSpec typeName specs with
       | some ty => some ty
       | none => findTypeDecl typeName rest)
  | .funcDecl _ _ _ :: rest => findTypeDecl typeName rest

/-- The visitor closure of `getTypeInfo` (`ast.go` lines 181-237): hold
the first match in `result`; files after a match are ignored. -/
def getTypeInfoVisitor (typeName : String) (path : String) (_src : String)
    (file : GoFile) (result : Option TypeInfo) : Option TypeInfo × Option GoError :=
  match result with
  | some _ => (result, none)
  | none =>
    match findTypeDecl typeName file.decls with
    | some ty => (some (typeInfoFor path file typeName ty), none)
    | none => (none, none)

/-- `getTypeInfo` from `ast.go` (lines 178-244), continued: run the walk
and turn a nil result with a nil walk error into the not-found error. -/
def getTypeInfo (entries : List FsEntry) (typeName : String) :
    Option TypeInfo × Option GoError :=
  let r := walkGoFiles entries (getTypeInfoVisitor typeName) none
  match r with
  | (none, none) => (none, some ("type " ++ typeName ++ " not found"))
  | (result, err) => (result, err)

/-- An entry the walk actually visits: a non-directory `.go` path outside
`vendor/` whose read and parse both succeed. -/
def entryEligible (e : FsEntry) : Bool :=
  !e.isDir && goHasSuffix e.path ".go" && !goContains e.path "vendor/" &&
    e.readResult.isSome && e.parseResult.isSome

/-- Stated from the claim for C3: the first visited entry declaring the
requested type, in traversal order, rendered as the `TypeInfo` the
visitor builds for it; `none` when no visited file declares it. -/
def firstTypeMatch (typeName : String) : List FsEntry → Option TypeInfo
  | [] => none
  | e :: rest =>
    if entryEligible e then
      match e.parseResult with
      | some file =>
        match findTypeDecl typeName file.decls with
        | some ty => some (typeInfoFor e.path file typeName ty)
        | none => firstTypeMatch typeName rest
      | none => firstTypeMatch typeName rest
    else firstTypeMatch typeName rest

/-- A package record (`ast.go` lines 59-65). -/
structure Package where
  importPath : String
  name : String
  dir : String
  goFiles : List String
  imports : List String
deriving DecidableEq, Repr

/-- Lookup in the insertion-ordered association list modelling the Go
`map[string]*Package`. -/
def assocGet (k : String) : List (String × Package) → Option Package
  | [] => none
  | (k', p) :: rest => if k' = k then some p else assocGet k rest

/-- In-place update of one key of the association list (the Go code
mutates through the stored `*Package` pointer). -/
def assocUpdate (k : String) (f : Package → Package) :
    List (String × Package) → List (String × Package)
  | [] => []
  | (k', p) :: rest =>
      if k' = k then (k', f p) :: rest else (k', p) :: assocUpdate k f rest

/-- The key set of the Go `imports := make(map[string]bool)` built from one
file's imports: duplicates removed, keeping first occurrences (the set is
iterated in an unspecified order anyway, see `listPackages`). -/
def firstDedup : List String → List String
  | [] => []
  | x :: xs => x :: (firstDedup xs).filter (fun y => y ≠ x)

/-- The visitor body of `listPackages` (`ast.go` lines 294-342) for one
visited file: initialize the package record on first sight of its
directory, append the file's base name, then merge the file's unique
imports that are not already recorded.  Go iterates the per-file import
set `for imp := range imports` in an unspecified map order, modelled by
the `importIter` argument (a permutation of its input). -/
def listPackagesVisit (dir : String) (importIter : List String → List String)
    (path : String) (file : GoFile) (pkgs : List (String × Package)) :
    List (String × Package) :=
  let pkgDir := goDir path
  let pkgs :=
    match assocGet pkgDir pkgs with
    | some _ => pkgs
    | none =>
        let trimmed := goTrimPre (goTrimPre pkgDir dir) "/"
        let importPath := if trimmed = "" then "." else trimmed
        pkgs ++ [(pkgDir,
          { importPath := importPath, name := file.pkgName, dir := pkgDir,
            goFiles := [], imports := [] })]
  let pkgs := assocUpdate pkgDir (fun p => { p with goFiles := p.goFiles ++ [goBase path] }) pkgs
  assocUpdate pkgDir (fun p =>
    let fileImports := importIter (firstDedup (file.imports.map goTrimQuotes))
    { p with imports := p.imports ++ fileImports.filter (fun i => !(p.imports.contains i)) }) pkgs

/-- The visitor closure of `listPackages` (`ast.go` lines 294-342): skip
test files unless requested, otherwise process the file with
`listPackagesVisit`. -/
def listPackagesVisitor (dir : String) (includeTests : Bool)
    (importIter : List String → List String) (path : String) (_src : String)
    (file : GoFile) (pkgs : List (String × Package)) :
    List (String × Package) × Option GoError :=
  if !includeTests && goHasSuffix path "_test.go" then (pkgs, none)
  else (listPackagesVisit dir importIter path file pkgs, none)

/-- `listPackages` from `ast.go` (lines 291-354), continued: run the walk
and on success return the package map's values in the map-iteration order
`pkgIter`. -/
def listPackages (dir : String) (entries : List FsEntry) (includeTests : Bool)
    (importIter : List String → List String)
    (pkgIter : List (String × Package) → List (String × Package)) :
    List Package × Option GoError :=
  let r := walkGoFiles entries (listPackagesVisitor dir includeTests importIter) []
  match r with
  | (_, some err) => ([], some err)
  | (pkgs, none) => ((pkgIter pkgs).map Prod.snd, none)

/-- Two packages that agree on every field, with the `imports` lists equal
up to order: the observable equality between two runs that only differ in
Go map-iteration order. -/
def PkgEquiv (p q : Package) : Prop :=
  p.importPath = q.importPath ∧ p.name = q.name ∧ p.dir = q.dir ∧
    p.goFiles = q.goFiles ∧ p.imports.Perm q.imports

/-- Pointwise `PkgEquiv` (with equal keys) between the two association
lists two runs accumulate. -/
def MapEquiv (m₁ m₂ : List (String × Package)) : Prop :=
  List.Forall₂ (fun a b => a.1 = b.1 ∧ PkgEquiv a.2 b.2) m₁ m₂

/-- A `Package` with its `imports` field viewed as a multiset: the
canonical shape shared by every possible map-iteration order. -/
def normalizePackage (p : Package) :
    String × String × String × List String × Multiset String :=
  (p.importPath, p.name, p.dir, p.goFiles, (p.imports : Multiset String))

/-- Syntax-node kinds distinguished by the loop-membership query of
`tool_analyze_go_idioms.go`: the two Go repetition constructs, and the
kinds used in the examples. -/
inductive NodeKind where
  | forStmt
  | rangeStmt
  | callExpr
  | funcDecl
  | fileNode
  | otherNode
deriving DecidableEq, Repr

/-- A generic syntax-tree node as traversed by `ast.Inspect`: Go compares
nodes by pointer identity (`n == child`), modelled by a node id that is
unique within a well-formed file tree. -/
inductive GoNode where
  | mk (id : Nat) (kind : NodeKind) (children : List GoNode)

/-- The id of a node (models its Go pointer identity). -/
def GoNode.nid : GoNode → Nat
  | .mk i _ _ => i

/-- The kind of a node. -/
def GoNode.kind : GoNode → NodeKind
  | .mk _ k _ => k

mutual

/-- All nodes `ast.Inspect` visits below (and including) a node, in
preorder. -/
def subtree : GoNode → List GoNode
  | .mk i k cs => .mk i k cs :: subtreeList cs

/-- Preorder traversal of a forest. -/
def subtreeList : List GoNode → List GoNode
  | [] => []
  | c :: cs => subtree c ++ subtreeList cs

end

/-- `containsNode` from `tool_analyze_go_idioms.go` (lines 246-256):
`ast.Inspect` over `parent` sets `found` when it reaches `child`
(pointer identity, modelled by node ids); returning `false` after a hit
only prunes the traversal and cannot unset `found`, so the result is
exactly "some node of `parent`'s subtree is `child`". -/
def containsNode (parent child : GoNode) : Bool :=
  (subtree parent).any (fun n => n.nid == child.nid)

/-- The type switch inside `isInLoop`: `*ast.ForStmt` or `*ast.RangeStmt`. -/
def isLoopNode (n : GoNode) : Bool :=
  n.kind == .forStmt || n.kind == .rangeStmt

/-- `isInLoop` from `tool_analyze_go_idioms.go` (lines 230-244):
`ast.Inspect` over the file sets `inLoop` when it reaches a for/range
statement whose subtree contains the target; pruning after a hit cannot
unset the flag, so the result is exactly "some loop construct of the file
contains the target". -/
def isInLoop (file target : GoNode) : Bool :=
  (subtree file).any (fun n => isLoopNode n && containsNode n target)

/-- The expression kinds `exprToString` handles with an explicit `case`
arm; everything else falls to the `default` arm. -/
def handledByExprToString : Expr → Bool
  | .structType _ => false
  | .otherExpr _ => false
  | _ => true

/-- The number of lines `extractContext` sees for a source text: one more
than the number of newlines. -/
def numLines (src : String) : Int := ((splitLines src.toList).length : Int)

lemma charsLeadingOf_iff (l₁ l₂ : List Char) : charsLeadingOf l₁ l₂ = true ↔ l₁ <+: l₂ := by
  induction l₁ generalizing l₂ with
  | nil => simp [charsLeadingOf]
  | cons a as ih =>
    cases l₂ with
    | nil => simp [charsLeadingOf]
    | cons b bs => simp [charsLeadingOf, List.cons_prefix_cons, ih, and_comm]

lemma charsInfixOf_iff (n h : List Char) : charsInfixOf n h = true ↔ n <:+: h := by
  induction h with
  | nil => simp [charsInfixOf, List.isEmpty_iff]
  | cons b bs ih =>
    simp [charsInfixOf, List.infix_cons_iff, charsLeadingOf_iff, ih]

/-- C7: `matchesPattern name pattern` is true exactly when the pattern is
empty or the lowercased pattern occurs as a substring of the lowercased
name; in particular `matchesPattern "HandleRequest" "handle"` and
`matchesPattern "HandleRequest" ""` are true and
`matchesPattern "Foo" "xyz"` is false. -/
theorem matchesPattern_c7 :
    (∀ name pattern : String, matchesPattern name pattern = true ↔
      pattern = "" ∨ (goToLower pattern).toList <:+: (goToLower name).toList) ∧
    matchesPattern "HandleRequest" "handle" = true ∧
    matchesPattern "HandleRequest" "" = true ∧
    matchesPattern "Foo" "xyz" = false := by
  refine ⟨fun name pattern => ?_, ?_, ?_, ?_⟩
  · by_cases h : pattern = ""
    · simp [matchesPattern, h]
    · simp [matchesPattern, h, goContains, charsInfixOf_iff]
  · simp [matchesPattern, goContains, goToLower, charsInfixOf, charsLeadingOf]
  · simp [matchesPattern]
  · simp [matchesPattern, goContains, goToLower, charsInfixOf, charsLeadingOf]

/-- C4 counterexample: the `ast.go` `exprToString` applied to an
unhandled expression kind (an `*ast.StructType` node) returns the node's
dynamic type name, not the literal `"unknown"` the claim states. -/
theorem exprToStringAst_c4_counterexample :
    exprToStringAst (Expr.structType FieldList.nil) = "*ast.StructType" ∧
    exprToStringAst (Expr.structType FieldList.nil) ≠ "unknown" := by
  refine ⟨?_, ?_⟩ <;> decide

/-- C4 (amended): both stringifiers are total; on every expression kind
without an explicit case the `common.go` `exprToString` returns the
literal `"unknown"`, while the `ast.go` variant returns the node's Go
dynamic type name. -/
theorem exprToString_c4_amended (e : Expr) (h : handledByExprToString e = false) :
    exprToString e = "unknown" ∧ exprToStringAst e = goDynamicTypeName e := by
  cases e <;> simp [handledByExprToString] at h <;>
    simp [exprToString, exprToStringAst, goDynamicTypeName]

/-- C4 witness: the amended fallback theorem applied to a concrete
unhandled node kind (`*ast.CallExpr`). -/
theorem exprToString_c4_witness :
    exprToString (Expr.otherExpr "*ast.CallExpr") = "unknown" ∧
    exprToStringAst (Expr.otherExpr "*ast.CallExpr") =
      goDynamicTypeName (Expr.otherExpr "*ast.CallExpr") :=
  exprToString_c4_amended (Expr.otherExpr "*ast.CallExpr") rfl

/-- C5: `extractContext` returns `""` whenever the requested line is below
1 or above the file's line count, and for an in-range line the selected
window `[start, stop)` is clamped inside `[0, lineCount]` and always
includes the (0-based) target line index. -/
theorem extractContext_c5 (src : String) (line : Int) :
    ((line < 1 ∨ line > numLines src) → extractContext src line = "") ∧
    (1 ≤ line → line ≤ numLines src →
      0 ≤ (contextWindow (numLines src) line).1 ∧
      (contextWindow (numLines src) line).1 ≤ line - 1 ∧
      line - 1 < (contextWindow (numLines src) line).2 ∧
      (contextWindow (numLines src) line).2 ≤ numLines src) := by
  constructor
  · intro h
    simp only [extractContext]
    split
    · rfl
    · rename_i hn
      exfalso
      simp only [decide_eq_true_eq, Bool.or_eq_true, not_or, List.length_map] at hn
      simp only [numLines] at h
      omega
  · intro h1 h2
    simp only [contextWindow]
    refine ⟨?_, ?_, ?_, ?_⟩ <;> (split <;> omega)

/-- C5 witness: the clamping theorem applied at a concrete three-line
source, for an out-of-range line and for line 1. -/
theorem extractContext_c5_witness :
    extractContext "a\nb\nc" 4 = "" ∧
    (0 ≤ (contextWindow (numLines "a\nb\nc") 1).1 ∧
      (contextWindow (numLines "a\nb\nc") 1).1 ≤ 0 ∧
      (0 : Int) < (contextWindow (numLines "a\nb\nc") 1).2 ∧
      (contextWindow (numLines "a\nb\nc") 1).2 ≤ numLines "a\nb\nc") := by
  constructor
  · exact (extractContext_c5 "a\nb\nc" 4).1 (Or.inr (by decide))
  · simpa using (extractContext_c5 "a\nb\nc" 1).2 (by decide) (by decide)

/-- C1 counterexample: for parameters `(a int, b string)` and result
`error`, `funcSignature` produces `"func((a int, b string)) error"` — the
rendered parameter list keeps its own parentheses inside the `func(...)`
wrapper — not the `"func(a int, b string) error"` the claim states. -/
theorem funcSignature_c1_counterexample :
    funcSignature (FuncTy.mk
      (.cons (.mk ["a"] (.ident "int") none) (.cons (.mk ["b"] (.ident "string") none) .nil))
      (.cons (.mk [] (.ident "error") none) .nil)) = "func((a int, b string)) error" ∧
    funcSignature (FuncTy.mk
      (.cons (.mk ["a"] (.ident "int") none) (.cons (.mk ["b"] (.ident "string") none) .nil))
      (.cons (.mk [] (.ident "error") none) .nil)) ≠ "func(a int, b string) error" := by
  refine ⟨?_, ?_⟩ <;> decide

/-- C1 (amended): `func(int)` for a single unnamed `int` parameter holds;
the two-parameter example renders as `"func((a int, b string)) error"`;
in general a single unnamed parameter renders bare exactly when its
type's rendering contains no space (otherwise its parenthesized rendering
is wrapped again by `func(...)`), and a parameter list with two or more
rendered `"name type"` parts always renders as a parenthesized,
comma-joined list inside the `func(...)` wrapper. -/
theorem funcSignature_c1_amended :
    funcSignature (FuncTy.mk (.cons (.mk [] (.ident "int") none) .nil) .nil) = "func(int)" ∧
    funcSignature (FuncTy.mk
      (.cons (.mk ["a"] (.ident "int") none) (.cons (.mk ["b"] (.ident "string") none) .nil))
      (.cons (.mk [] (.ident "error") none) .nil)) = "func((a int, b string)) error" ∧
    (∀ ty : Expr, goContains (exprToString ty) " " = false →
      funcSignature (FuncTy.mk (.cons (.mk [] ty none) .nil) .nil) =
        "func(" ++ exprToString ty ++ ")") ∧
    (∀ ty : Expr, goContains (exprToString ty) " " = true →
      funcSignature (FuncTy.mk (.cons (.mk [] ty none) .nil) .nil) =
        "func(" ++ ("(" ++ exprToString ty ++ ")") ++ ")") ∧
    (∀ fl : FieldList, 2 ≤ (fieldListParts fl).length →
      fieldListToString fl = "(" ++ goJoin ", " (fieldListParts fl) ++ ")") := by
  refine ⟨by decide, by decide, fun ty h => ?_, fun ty h => ?_, fun fl h => ?_⟩
  · simp [funcSignature, fieldListToString, fieldParts, fieldListParts, h, goJoin]
  · simp [funcSignature, fieldListToString, fieldParts, fieldListParts, h, goJoin]
  · cases fl with
    | nil => simp [fieldListParts] at h
    | cons f rest =>
      rw [fieldListToString]
      have hlen : ((fieldParts f ++ fieldListParts rest).length == 1) = false := by
        have : fieldParts f ++ fieldListParts rest = fieldListParts (.cons f rest) := rfl
        rw [this]
        simp only [beq_eq_false_iff_ne]
        omega
      simp only [hlen, Bool.false_and, Bool.false_eq_true, if_false]
      rfl

/-- C1 witness: the amended rule applied to concrete single-parameter
types — `int` (no space, bare) and `chan int` (space, extra parens) — and
to the concrete two-part list `(a int, b string)`. -/
theorem funcSignature_c1_witness :
    funcSignature (FuncTy.mk
      (.cons (.mk [] (.chanType .both (.ident "int")) none) .nil) .nil) =
      "func(" ++ ("(" ++ exprToString (Expr.chanType ChanDir.both (Expr.ident "int")) ++ ")") ++ ")" ∧
    funcSignature (FuncTy.mk (.cons (.mk [] (.basicLit "7") none) .nil) .nil) =
      "func(" ++ exprToString (Expr.basicLit "7") ++ ")" ∧
    fieldListToString
      (.cons (.mk ["a"] (.ident "int") none) (.cons (.mk ["b"] (.ident "string") none) .nil)) =
      "(" ++ goJoin ", " (fieldListParts
        (.cons (.mk ["a"] (.ident "int") none)
          (.cons (.mk ["b"] (.ident "string") none) .nil))) ++ ")" :=
  ⟨(funcSignature_c1_amended.2.2.2.1 (Expr.chanType ChanDir.both (Expr.ident "int")) (by decide)),
   (funcSignature_c1_amended.2.2.1 (Expr.basicLit "7") (by decide)),
   (funcSignature_c1_amended.2.2.2.2
      (.cons (.mk ["a"] (.ident "int") none) (.cons (.mk ["b"] (.ident "string") none) .nil))
      (by decide))⟩

/-- C6: `isInLoop file node` is true exactly when some for/range construct
in the file contains the node in its subtree (`containsNode`); on a
concrete file whose loop wraps one call while a structurally identical
call (same kind, same children, different occurrence) sits outside the
loop, it answers true for the wrapped call and false for the outer one. -/
theorem isInLoop_c6 :
    (∀ file target : GoNode, isInLoop file target = true ↔
      ∃ n ∈ subtree file, isLoopNode n = true ∧ containsNode n target = true) ∧
    isInLoop
      (GoNode.mk 0 .fileNode [GoNode.mk 1 .funcDecl
        [GoNode.mk 2 .forStmt [GoNode.mk 3 .callExpr []], GoNode.mk 4 .callExpr []]])
      (GoNode.mk 3 .callExpr []) = true ∧
    isInLoop
      (GoNode.mk 0 .fileNode [GoNode.mk 1 .funcDecl
        [GoNode.mk 2 .forStmt [GoNode.mk 3 .callExpr []], GoNode.mk 4 .callExpr []]])
      (GoNode.mk 4 .callExpr []) = false := by
  refine ⟨fun file target => ?_, ?_, ?_⟩
  · simp [isInLoop, List.any_eq_true]
  · simp [isInLoop, subtree, subtreeList, containsNode, isLoopNode, GoNode.nid, GoNode.kind]
  · simp [isInLoop, subtree, subtreeList, containsNode, isLoopNode, GoNode.nid, GoNode.kind]

/-- C8: every path at which `walkGoFiles` invokes its visitor — for any
visitor, any state, and any directory contents — ends in `".go"` and does
not contain the `"vendor/"` marker. -/
theorem walkVisited_c8 {σ : Type} (entries : List FsEntry)
    (visitor : String → String → GoFile → σ → σ × Option GoError) (s : σ) :
    ∀ p ∈ walkVisited entries visitor s,
      goHasSuffix p ".go" = true ∧ goContains p "vendor/" = false := by
  induction entries generalizing s with
  | nil => intro p hp; simp [walkVisited] at hp
  | cons e rest ih =>
    intro p hp
    rw [walkVisited] at hp
    cases hwe : e.walkErr with
    | some err => simp [hwe] at hp
    | none =>
      rw [hwe] at hp
      simp only at hp
      cases hcond : (e.isDir || !goHasSuffix e.path ".go" || goContains e.path "vendor/") with
      | true => rw [hcond] at hp; simp only [if_true] at hp; exact ih s p hp
      | false =>
        rw [hcond] at hp
        simp only [Bool.false_eq_true, if_false] at hp
        have hparts : goHasSuffix e.path ".go" = true ∧ goContains e.path "vendor/" = false := by
          simp only [Bool.or_eq_false_iff, Bool.not_eq_false'] at hcond
          exact ⟨hcond.1.2, hcond.2⟩
        cases hrr : e.readResult with
        | none => rw [hrr] at hp; simp only at hp; exact ih s p hp
        | some src =>
          rw [hrr] at hp
          simp only at hp
          cases hpr : e.parseResult with
          | none => rw [hpr] at hp; simp only at hp; exact ih s p hp
          | some file =>
            rw [hpr] at hp
            simp only at hp
            cases hv : visitor e.path src file s with
            | mk s' oe =>
              rw [hv] at hp
              cases oe with
              | some err =>
                simp only [List.mem_singleton] at hp
                subst hp
                exact hparts
              | none =>
                simp only [List.mem_cons] at hp
                cases hp with
                | inl h => subst h; exact hparts
                | inr h => exact ih s' p h

/-- C8 witness: the filter theorem applied to a one-file directory and the
trivial visitor, at the one visited path. -/
theorem walkVisited_c8_witness :
    goHasSuffix "pkg/a.go" ".go" = true ∧ goContains "pkg/a.go" "vendor/" = false :=
  walkVisited_c8
    [⟨"pkg/a.go", false, none, some "", some ⟨"pkg", [], []⟩⟩]
    (fun _ _ _ s => (s, none)) () "pkg/a.go"
    (by simp [walkVisited, goHasSuffix, goContains, charsLeadingOf, charsInfixOf])

/-- C2: a file whose read fails, or whose parse fails, is skipped — the
visitor is not invoked on it and the walk continues with the same result
as if the entry were absent; a directory-enumeration error aborts the
walk immediately and is returned; and a visitor error aborts the rest of
the walk and is returned. -/
theorem walkGoFiles_c2 {σ : Type} (rest : List FsEntry)
    (visitor : String → String → GoFile → σ → σ × Option GoError) (s : σ)
    (path src : String) (file : GoFile) :
    (∀ pr : Option GoFile,
      walkGoFiles (⟨path, false, none, none, pr⟩ :: rest) visitor s =
        walkGoFiles rest visitor s ∧
      walkVisited (⟨path, false, none, none, pr⟩ :: rest) visitor s =
        walkVisited rest visitor s) ∧
    (walkGoFiles (⟨path, false, none, some src, none⟩ :: rest) visitor s =
        walkGoFiles rest visitor s ∧
      walkVisited (⟨path, false, none, some src, none⟩ :: rest) visitor s =
        walkVisited rest visitor s) ∧
    (∀ (e : FsEntry) (err : GoError), e.walkErr = some err →
      walkGoFiles (e :: rest) visitor s = (s, some err) ∧
      walkVisited (e :: rest) visitor s = []) ∧
    (∀ (s' : σ) (err : GoError),
      goHasSuffix path ".go" = true → goContains path "vendor/" = false →
      visitor path src file s = (s', some err) →
      walkGoFiles (⟨path, false, none, some src, some file⟩ :: rest) visitor s = (s', some err) ∧
      walkVisited (⟨path, false, none, some src, some file⟩ :: rest) visitor s = [path]) := by
  refine ⟨fun pr => ⟨?_, ?_⟩, ⟨?_, ?_⟩, fun e err he => ⟨?_, ?_⟩,
    fun s' err h1 h2 hv => ⟨?_, ?_⟩⟩
  · simp only [walkGoFiles]; split <;> rfl
  · simp only [walkVisited]; split <;> rfl
  · simp only [walkGoFiles]; split <;> rfl
  · simp only [walkVisited]; split <;> rfl
  · simp [walkGoFiles, he]
  · simp [walkVisited, he]
  · simp [walkGoFiles, h1, h2, hv]
  · simp [walkVisited, h1, h2, hv]

/-- C2 witness: the error-handling theorem applied to concrete entries —
an unreadable file, an unparsable file, a directory-enumeration error,
and an error-returning visitor. -/
theorem walkGoFiles_c2_witness :
    (walkGoFiles [⟨"a.go", false, none, none, none⟩]
        (fun _ _ _ (st : Nat) => (st, some "boom")) 0 =
      walkGoFiles [] (fun _ _ _ (st : Nat) => (st, some "boom")) 0) ∧
    (walkGoFiles [⟨"a.go", false, none, some "", none⟩]
        (fun _ _ _ (st : Nat) => (st, some "boom")) 0 =
      walkGoFiles [] (fun _ _ _ (st : Nat) => (st, some "boom")) 0) ∧
    (walkGoFiles [⟨"x", true, some "readdir denied", none, none⟩]
        (fun _ _ _ (st : Nat) => (st, some "boom")) 0 = (0, some "readdir denied")) ∧
    (walkGoFiles [⟨"a.go", false, none, some "", some ⟨"p", [], []⟩⟩]
        (fun _ _ _ (st : Nat) => (st, some "boom")) 0 = (0, some "boom") ∧
      walkVisited [⟨"a.go", false, none, some "", some ⟨"p", [], []⟩⟩]
        (fun _ _ _ (st : Nat) => (st, some "boom")) 0 = ["a.go"]) :=
  ⟨((walkGoFiles_c2 [] (fun _ _ _ st => (st, some "boom")) 0 "a.go" "" ⟨"p", [], []⟩).1 none).1,
   ((walkGoFiles_c2 [] (fun _ _ _ st => (st, some "boom")) 0 "a.go" "" ⟨"p", [], []⟩).2.1).1,
   ((walkGoFiles_c2 [] (fun _ _ _ st => (st, some "boom")) 0 "a.go" "" ⟨"p", [], []⟩).2.2.1
      ⟨"x", true, some "readdir denied", none, none⟩ "readdir denied" rfl).1,
   (walkGoFiles_c2 [] (fun _ _ _ st => (st, some "boom")) 0 "a.go" "" ⟨"p", [], []⟩).2.2.2
      0 "boom"
      (by simp [goHasSuffix, charsLeadingOf])
      (by simp [goContains, charsInfixOf, charsLeadingOf])
      rfl⟩

lemma walkGoFiles_inv {σ : Type} (P : σ → Prop)
    (visitor : String → String → GoFile → σ → σ × Option GoError)
    (hv : ∀ p src f st, P st → P (visitor p src f st).1) :
    ∀ (entries : List FsEntry) (s : σ), P s → P (walkGoFiles entries visitor s).1 := by
  intro entries
  induction entries with
  | nil => intro s hs; simpa [walkGoFiles] using hs
  | cons e rest ih =>
    intro s hs
    rw [walkGoFiles]
    cases hwe : e.walkErr with
    | some err => exact hs
    | none =>
      simp only
      split
      · exact ih s hs
      · cases hrr : e.readResult with
        | none => exact ih s hs
        | some src =>
          simp only
          cases hpr : e.parseResult with
          | none => exact ih s hs
          | some file =>
            simp only
            cases hvis : visitor e.path src file s with
            | mk s' oe =>
              have hs' : P s' := by
                have := hv e.path src file s hs
                rw [hvis] at this
                exact this
              cases oe with
              | some err => exact hs'
              | none => exact ih s' hs'

lemma walkGoFiles_congr {σ : Type}
    (v₁ v₂ : String → String → GoFile → σ → σ × Option GoError)
    (h : ∀ p src f st, v₁ p src f st = v₂ p src f st) :
    ∀ (entries : List FsEntry) (s : σ),
      walkGoFiles entries v₁ s = walkGoFiles entries v₂ s := by
  intro entries
  induction entries with
  | nil => intro s; rfl
  | cons e rest ih =>
    intro s
    rw [walkGoFiles, walkGoFiles]
    cases hwe : e.walkErr with
    | some err => rfl
    | none =>
      simp only
      split
      · exact ih s
      · cases hrr : e.readResult with
        | none => exact ih s
        | some src =>
          simp only
          cases hpr : e.parseResult with
          | none => exact ih s
          | some file =>
            simp only
            rw [h e.path src file s]
            cases v₂ e.path src file s with
            | mk s' oe =>
              cases oe with
              | some err => rfl
              | none => exact ih s'

lemma symbolsOfDecl_file (path pkg pattern : String) (d : Decl) :
    ∀ sym ∈ symbolsOfDecl path pkg pattern d, sym.file = path := by
  intro sym hs
  cases d with
  | funcDecl name recv ftype =>
    simp only [symbolsOfDecl] at hs
    split at hs
    · simp only [List.mem_singleton] at hs
      subst hs
      rfl
    · simp at hs
  | genDecl tok specs =>
    simp only [symbolsOfDecl, List.mem_flatMap] at hs
    obtain ⟨spec, _, hs⟩ := hs
    cases spec with
    | typeSpec n ty =>
      simp only at hs
      split at hs
      · simp only [List.mem_singleton] at hs
        subst hs
        rfl
      · simp at hs
    | valueSpec names =>
      simp only [List.mem_flatMap] at hs
      obtain ⟨n, _, hs⟩ := hs
      split at hs
      · simp only [List.mem_singleton] at hs
        subst hs
        rfl
      · simp at hs

/-- C10: when the pattern does not contain `"Test"` (case-sensitively),
no symbol returned by `findSymbols` comes from a `_test.go` file; when it
does, `findSymbols` behaves exactly like the same walk without the
test-file filter — test files are processed like any others. -/
theorem findSymbols_c10 (entries : List FsEntry) (pattern : String) :
    (goContains pattern "Test" = false →
      ∀ sym ∈ (findSymbols entries pattern).1,
        goHasSuffix sym.file "_test.go" = false) ∧
    (goContains pattern "Test" = true →
      findSymbols entries pattern =
        walkGoFiles entries (findSymbolsAllVisitor pattern) []) := by
  constructor
  · intro hpat
    refine walkGoFiles_inv
      (fun syms => ∀ t ∈ syms, goHasSuffix t.file "_test.go" = false)
      (findSymbolsVisitor pattern) ?_ entries [] (by simp)
    intro p src f st hst
    simp only [findSymbolsVisitor, hpat, Bool.not_false, Bool.and_true]
    cases htest : goHasSuffix p "_test.go" with
    | true => simpa using hst
    | false =>
      simp only [Bool.false_eq_true, if_false]
      intro t ht
      rcases List.mem_append.1 ht with h | h
      · exact hst t h
      · obtain ⟨d, _, hd⟩ := List.mem_flatMap.1 h
        rw [symbolsOfDecl_file p f.pkgName pattern d t hd]
        exact htest
  · intro hpat
    exact walkGoFiles_congr _ _
      (fun p src f st => by
        simp [findSymbolsVisitor, findSymbolsAllVisitor, hpat])
      entries []

/-- C10 witness: on a directory with one ordinary file and one test file
each declaring `foo`, the pattern `"foo"` yields only the symbol of the
ordinary file, and for the pattern `"Test"` the filtered and unfiltered
walks coincide. -/
theorem findSymbols_c10_witness :
    goHasSuffix "a.go" "_test.go" = false ∧
    findSymbols [⟨"b_test.go", false, none, some "",
        some ⟨"p", [], [Decl.funcDecl "foo" none (FuncTy.mk .nil .nil)]⟩⟩] "Test" =
      walkGoFiles [⟨"b_test.go", false, none, some "",
        some ⟨"p", [], [Decl.funcDecl "foo" none (FuncTy.mk .nil .nil)]⟩⟩]
        (findSymbolsAllVisitor "Test") [] := by
  constructor
  · refine (findSymbols_c10
      [⟨"a.go", false, none, some "",
          some ⟨"p", [], [Decl.funcDecl "foo" none (FuncTy.mk .nil .nil)]⟩⟩,
        ⟨"b_test.go", false, none, some "",
          some ⟨"p", [], [Decl.funcDecl "foo" none (FuncTy.mk .nil .nil)]⟩⟩] "foo").1
      (by decide) ⟨"foo", "function", "p", "a.go", false⟩ ?_
    decide
  · exact (findSymbols_c10 _ "Test").2 (by decide)

lemma typeInfoFor_name (path : String) (file : GoFile) (typeName : String) (ty : Expr) :
    (typeInfoFor path file typeName ty).name = typeName := by
  cases ty <;> rfl

lemma walk_getTypeInfo_found (typeName : String) (info : TypeInfo) :
    ∀ (entries : List FsEntry), (∀ e ∈ entries, e.walkErr = none) →
      walkGoFiles entries (getTypeInfoVisitor typeName) (some info) = (some info, none) := by
  intro entries
  induction entries with
  | nil => intro _; rfl
  | cons e rest ih =>
    intro hclean
    have hrest : ∀ e' ∈ rest, e'.walkErr = none :=
      fun e' he' => hclean e' (List.mem_cons_of_mem e he')
    rw [walkGoFiles, hclean e (List.mem_cons_self e rest)]
    simp only
    split
    · exact ih hrest
    · cases hrr : e.readResult with
      | none => exact ih hrest
      | some src =>
        simp only
        cases hpr : e.parseResult with
        | none => exact ih hrest
        | some file =>
          simp only [getTypeInfoVisitor]
          exact ih hrest

lemma walk_getTypeInfo_none (typeName : String) :
    ∀ (entries : List FsEntry), (∀ e ∈ entries, e.walkErr = none) →
      walkGoFiles entries (getTypeInfoVisitor typeName) none =
        (firstTypeMatch typeName entries, none) := by
  intro entries
  induction entries with
  | nil => intro _; rfl
  | cons e rest ih =>
    intro hclean
    have hrest : ∀ e' ∈ rest, e'.walkErr = none :=
      fun e' he' => hclean e' (List.mem_cons_of_mem e he')
    rw [walkGoFiles, hclean e (List.mem_cons_self e rest), firstTypeMatch]
    simp only
    cases hcond : (e.isDir || !goHasSuffix e.path ".go" || goContains e.path "vendor/") with
    | true =>
      have hel : entryEligible e = false := by
        simp only [Bool.or_eq_true, Bool.not_eq_true'] at hcond
        rcases hcond with (h | h) | h <;> simp [entryEligible, h]
      rw [hel]
      simp only [Bool.false_eq_true, if_false]
      exact ih hrest
    | false =>
      simp only [Bool.false_eq_true, if_false]
      have hc : e.isDir = false ∧ goHasSuffix e.path ".go" = true ∧
          goContains e.path "vendor/" = false := by
        simp only [Bool.or_eq_false_iff, Bool.not_eq_false'] at hcond
        exact ⟨hcond.1.1, hcond.1.2, hcond.2⟩
      cases hrr : e.readResult with
      | none =>
        have hel : entryEligible e = false := by simp [entryEligible, hrr]
        rw [hel]
        simp only [Bool.false_eq_true, if_false]
        exact ih hrest
      | some src =>
        simp only
        cases hpr : e.parseResult with
        | none =>
          have hel : entryEligible e = false := by simp [entryEligible, hpr]
          rw [hel]
          simp only [Bool.false_eq_true, if_false]
          exact ih hrest
        | some file =>
          have hel : entryEligible e = true := by
            simp [entryEligible, hc.1, hc.2.1, hc.2.2, hrr, hpr]
          rw [hel]
          simp only [if_true, hpr]
          simp only [getTypeInfoVisitor]
          cases hft : findTypeDecl typeName file.decls with
          | some ty => exact walk_getTypeInfo_found typeName _ rest hrest
          | none => exact ih hrest

/-- C3: over a directory whose enumeration succeeds, if no visited file
declares the requested type then `getTypeInfo` returns a nil result with
the non-nil `"type ... not found"` error, and if some visited file does,
it returns the `TypeInfo` of the first match in traversal order with no
error — so an absent type is distinguishable from a found one. -/
theorem getTypeInfo_c3 (entries : List FsEntry) (typeName : String)
    (hclean : ∀ e ∈ entries, e.walkErr = none) :
    (firstTypeMatch typeName entries = none →
      getTypeInfo entries typeName =
        (none, some ("type " ++ typeName ++ " not found"))) ∧
    (∀ info : TypeInfo, firstTypeMatch typeName entries = some info →
      getTypeInfo entries typeName = (some info, none) ∧ info.name = typeName) := by
  constructor
  · intro hnone
    rw [getTypeInfo, walk_getTypeInfo_none typeName entries hclean, hnone]
  · intro info hsome
    constructor
    · rw [getTypeInfo, walk_getTypeInfo_none typeName entries hclean, hsome]
    · have : ∀ (es : List FsEntry) (i : TypeInfo),
          firstTypeMatch typeName es = some i → i.name = typeName := by
        intro es
        induction es with
        | nil => intro i h; simp [firstTypeMatch] at h
        | cons e rest ih =>
          intro i h
          rw [firstTypeMatch] at h
          split at h
          · cases hpr : e.parseResult with
            | none => rw [hpr] at h; exact ih i h
            | some file =>
              rw [hpr] at h
              simp only at h
              cases hft : findTypeDecl typeName file.decls with
              | some ty =>
                rw [hft] at h
                simp only [Option.some_inj] at h
                subst h
                exact typeInfoFor_name e.path file typeName ty
              | none => rw [hft] at h; exact ih i h
          · exact ih i h
      exact this entries info hsome

/-- C3 witness: a one-file directory declaring `type Foo struct {}` —
looking up `Bar` yields the not-found error with a nil result, looking up
`Foo` yields the first match and no error. -/
theorem getTypeInfo_c3_witness :
    getTypeInfo [⟨"a.go", false, none, some "",
        some ⟨"p", [], [Decl.genDecl GenTok.typeTok
          [DeclSpec.typeSpec "Foo" (Expr.structType .nil)]]⟩⟩] "Bar" =
      (none, some ("type " ++ "Bar" ++ " not found")) ∧
    getTypeInfo [⟨"a.go", false, none, some "",
        some ⟨"p", [], [Decl.genDecl GenTok.typeTok
          [DeclSpec.typeSpec "Foo" (Expr.structType .nil)]]⟩⟩] "Foo" =
      (some ⟨"Foo", "p", "a.go", "struct", [], [], [], [], ""⟩, none) := by
  constructor
  · exact (getTypeInfo_c3 _ "Bar" (by intro e he; simp at he; rw [he])).1 (by decide)
  · exact ((getTypeInfo_c3 _ "Foo" (by intro e he; simp at he; rw [he])).2
      ⟨"Foo", "p", "a.go", "struct", [], [], [], [], ""⟩ (by decide)).1

lemma pkgEquiv_refl (p : Package) : PkgEquiv p p :=
  ⟨rfl, rfl, rfl, rfl, List.Perm.refl _⟩

lemma pkgEquiv_norm {p q : Package} (h : PkgEquiv p q) :
    normalizePackage p = normalizePackage q := by
  obtain ⟨h1, h2, h3, h4, h5⟩ := h
  simp [normalizePackage, h1, h2, h3, h4, Multiset.coe_eq_coe.2 h5]

lemma mapEquiv_assocGet_none {m₁ m₂ : List (String × Package)} (h : MapEquiv m₁ m₂)
    (k : String) : assocGet k m₁ = none ↔ assocGet k m₂ = none := by
  induction h with
  | nil => simp [assocGet]
  | @cons a b l₁ l₂ hab hrest ih =>
    obtain ⟨ka, pa⟩ := a
    obtain ⟨kb, pb⟩ := b
    obtain ⟨hk, _⟩ := hab
    simp only at hk
    subst hk
    rw [assocGet, assocGet]
    by_cases hkk : ka = k
    · rw [if_pos hkk, if_pos hkk]
      simp
    · rw [if_neg hkk, if_neg hkk]
      exact ih

lemma mapEquiv_assocUpdate {m₁ m₂ : List (String × Package)} (h : MapEquiv m₁ m₂)
    (k : String) (f₁ f₂ : Package → Package)
    (hf : ∀ p q, PkgEquiv p q → PkgEquiv (f₁ p) (f₂ q)) :
    MapEquiv (assocUpdate k f₁ m₁) (assocUpdate k f₂ m₂) := by
  induction h with
  | nil => exact List.Forall₂.nil
  | @cons a b l₁ l₂ hab hrest ih =>
    obtain ⟨ka, pa⟩ := a
    obtain ⟨kb, pb⟩ := b
    obtain ⟨hk, hpq⟩ := hab
    simp only at hk hpq
    subst hk
    rw [assocUpdate, assocUpdate]
    by_cases hkk : ka = k
    · rw [if_pos hkk, if_pos hkk]
      exact List.Forall₂.cons ⟨rfl, hf pa pb hpq⟩ hrest
    · rw [if_neg hkk, if_neg hkk]
      exact List.Forall₂.cons ⟨rfl, hpq⟩ ih

lemma listPackagesVisit_equiv (dir path : String) (file : GoFile)
    (i₁ i₂ : List String → List String)
    (hi₁ : ∀ l, (i₁ l).Perm l) (hi₂ : ∀ l, (i₂ l).Perm l)
    {m₁ m₂ : List (String × Package)} (h : MapEquiv m₁ m₂) :
    MapEquiv (listPackagesVisit dir i₁ path file m₁)
      (listPackagesVisit dir i₂ path file m₂) := by
  have hfiles : ∀ p q, PkgEquiv p q →
      PkgEquiv { p with goFiles := p.goFiles ++ [goBase path] }
        { q with goFiles := q.goFiles ++ [goBase path] } := by
    intro p q ⟨h1, h2, h3, h4, h5⟩
    exact ⟨h1, h2, h3, by rw [h4], h5⟩
  have himps : ∀ (D : List String) p q, PkgEquiv p q →
      PkgEquiv { p with imports := p.imports ++ (i₁ D).filter (fun i => !(p.imports.contains i)) }
        { q with imports := q.imports ++ (i₂ D).filter (fun i => !(q.imports.contains i)) } := by
    intro D p q ⟨h1, h2, h3, h4, h5⟩
    refine ⟨h1, h2, h3, h4, ?_⟩
    refine List.Perm.append h5 ?_
    have hpred : (fun i => !(p.imports.contains i)) = (fun i => !(q.imports.contains i)) := by
      funext i
      have hmem : i ∈ p.imports ↔ i ∈ q.imports := h5.mem_iff
      suffices hck : p.imports.contains i = q.imports.contains i by rw [hck]
      cases hc : p.imports.contains i with
      | true => exact (List.elem_iff.2 (hmem.1 (List.elem_iff.1 hc))).symm
      | false =>
        cases hc' : q.imports.contains i with
        | true =>
          exact absurd (List.elem_iff.2 (hmem.2 (List.elem_iff.1 hc')))
            (by rw [show List.elem i p.imports = p.imports.contains i from rfl, hc]; simp)
        | false => rfl
    rw [hpred]
    exact List.Perm.filter _ ((hi₁ D).trans (hi₂ D).symm)
  rw [listPackagesVisit, listPackagesVisit]
  cases hg₁ : assocGet (goDir path) m₁ with
  | some p =>
    cases hg₂ : assocGet (goDir path) m₂ with
    | some q =>
      simp only
      exact mapEquiv_assocUpdate (mapEquiv_assocUpdate h _ _ _ hfiles) _ _ _ (himps _)
    | none =>
      exact absurd ((mapEquiv_assocGet_none h (goDir path)).2 hg₂) (by rw [hg₁]; simp)
  | none =>
    cases hg₂ : assocGet (goDir path) m₂ with
    | some q =>
      exact absurd ((mapEquiv_assocGet_none h (goDir path)).1 hg₁) (by rw [hg₂]; simp)
    | none =>
      simp only
      refine mapEquiv_assocUpdate (mapEquiv_assocUpdate ?_ _ _ _ hfiles) _ _ _ (himps _)
      exact List.rel_append h (List.Forall₂.cons ⟨rfl, pkgEquiv_refl _⟩ List.Forall₂.nil)

lemma walk_listPackages_equiv (dir : String) (includeTests : Bool)
    (i₁ i₂ : List String → List String)
    (hi₁ : ∀ l, (i₁ l).Perm l) (hi₂ : ∀ l, (i₂ l).Perm l) :
    ∀ (entries : List FsEntry) (m₁ m₂ : List (String × Package)), MapEquiv m₁ m₂ →
      MapEquiv (walkGoFiles entries (listPackagesVisitor dir includeTests i₁) m₁).1
        (walkGoFiles entries (listPackagesVisitor dir includeTests i₂) m₂).1 ∧
      (walkGoFiles entries (listPackagesVisitor dir includeTests i₁) m₁).2 =
        (walkGoFiles entries (listPackagesVisitor dir includeTests i₂) m₂).2 := by
  intro entries
  induction entries with
  | nil => intro m₁ m₂ h; exact ⟨h, rfl⟩
  | cons e rest ih =>
    intro m₁ m₂ h
    rw [walkGoFiles, walkGoFiles]
    cases hwe : e.walkErr with
    | some err => exact ⟨h, rfl⟩
    | none =>
      simp only
      split
      · exact ih m₁ m₂ h
      · cases hrr : e.readResult with
        | none => exact ih m₁ m₂ h
        | some src =>
          simp only
          cases hpr : e.parseResult with
          | none => exact ih m₁ m₂ h
          | some file =>
            simp only [listPackagesVisitor]
            cases htest : (!includeTests && goHasSuffix e.path "_test.go") with
            | true => exact ih m₁ m₂ h
            | false =>
              simp only [Bool.false_eq_true, if_false]
              exact ih _ _ (listPackagesVisit_equiv dir e.path file i₁ i₂ hi₁ hi₂ h)

lemma mapEquiv_map_norm {m₁ m₂ : List (String × Package)} (h : MapEquiv m₁ m₂) :
    m₁.map (fun x => normalizePackage x.2) = m₂.map (fun x => normalizePackage x.2) := by
  induction h with
  | nil => rfl
  | @cons a b l₁ l₂ hab hrest ih => simp [pkgEquiv_norm hab.2, ih]

/-- C9 counterexample: a directory with one file importing two packages.
Go iterates the per-file import set `for imp := range imports` in an
unspecified map order, so identity and reversal (a permutation, see
`List.reverse_perm`) are both orders a run may exhibit; the two runs of
`listPackages` below return package lists that are *not* equal as
multisets, because the one package's `imports` field records the two
imports in different orders. -/
theorem listPackages_c9_counterexample :
    Multiset.ofList (listPackages "."
        [⟨"p/a.go", false, none, some "",
          some ⟨"p", ["\"x\"", "\"y\""], []⟩⟩] false id id).1 ≠
      Multiset.ofList (listPackages "."
        [⟨"p/a.go", false, none, some "",
          some ⟨"p", ["\"x\"", "\"y\""], []⟩⟩] false List.reverse id).1 := by
  have h₁ : (listPackages "."
      [⟨"p/a.go", false, none, some "", some ⟨"p", ["\"x\"", "\"y\""], []⟩⟩]
      false id id).1 =
      [{ importPath := "p", name := "p", dir := "p", goFiles := ["a.go"],
         imports := ["x", "y"] }] := by decide
  have h₂ : (listPackages "."
      [⟨"p/a.go", false, none, some "", some ⟨"p", ["\"x\"", "\"y\""], []⟩⟩]
      false List.reverse id).1 =
      [{ importPath := "p", name := "p", dir := "p", goFiles := ["a.go"],
         imports := ["y", "x"] }] := by decide
  rw [h₁, h₂, Multiset.coe_singleton, Multiset.coe_singleton]
  rw [Ne, Multiset.singleton_inj]
  decide

/-- C9 (amended): `findSymbols` is a pure function of the directory
snapshot, so two runs return identical results; `listPackages` under any
two map-iteration orders returns the same error and package lists that
are equal as multisets *after* viewing each package's `imports` field as
a multiset — top-level order and per-package import order are the only
run-to-run differences. -/
theorem listPackages_c9_amended (dir : String) (entries : List FsEntry)
    (includeTests : Bool) (i₁ i₂ : List String → List String)
    (p₁ p₂ : List (String × Package) → List (String × Package))
    (hi₁ : ∀ l, (i₁ l).Perm l) (hi₂ : ∀ l, (i₂ l).Perm l)
    (hp₁ : ∀ m, (p₁ m).Perm m) (hp₂ : ∀ m, (p₂ m).Perm m) :
    (∀ pattern : String, findSymbols entries pattern = findSymbols entries pattern) ∧
    (listPackages dir entries includeTests i₁ p₁).2 =
      (listPackages dir entries includeTests i₂ p₂).2 ∧
    Multiset.ofList ((listPackages dir entries includeTests i₁ p₁).1.map normalizePackage) =
      Multiset.ofList ((listPackages dir entries includeTests i₂ p₂).1.map normalizePackage) := by
  obtain ⟨hm, he⟩ := walk_listPackages_equiv dir includeTests i₁ i₂ hi₁ hi₂ entries [] []
    List.Forall₂.nil
  refine ⟨fun _ => rfl, ?_, ?_⟩
  · rw [listPackages, listPackages]
    rcases hw₁ : walkGoFiles entries (listPackagesVisitor dir includeTests i₁) [] with ⟨s₁, oe₁⟩
    rcases hw₂ : walkGoFiles entries (listPackagesVisitor dir includeTests i₂) [] with ⟨s₂, oe₂⟩
    rw [hw₁, hw₂] at he
    simp only at he
    subst he
    cases oe₁ <;> rfl
  · rw [listPackages, listPackages]
    rcases hw₁ : walkGoFiles entries (listPackagesVisitor dir includeTests i₁) [] with ⟨s₁, oe₁⟩
    rcases hw₂ : walkGoFiles entries (listPackagesVisitor dir includeTests i₂) [] with ⟨s₂, oe₂⟩
    rw [hw₁, hw₂] at he hm
    simp only at he hm
    subst he
    cases oe₁ with
    | some err => rfl
    | none =>
      simp only
      rw [Multiset.coe_eq_coe]
      have c₁ : ((p₁ s₁).map Prod.snd).map normalizePackage =
          (p₁ s₁).map (fun x => normalizePackage x.2) := by
        rw [List.map_map]; rfl
      have c₂ : ((p₂ s₂).map Prod.snd).map normalizePackage =
          (p₂ s₂).map (fun x => normalizePackage x.2) := by
        rw [List.map_map]; rfl
      rw [c₁, c₂]
      have t₁ : ((p₁ s₁).map (fun x => normalizePackage x.2)).Perm
          (s₁.map (fun x => normalizePackage x.2)) := (hp₁ s₁).map _
      have t₂ : ((p₂ s₂).map (fun x => normalizePackage x.2)).Perm
          (s₂.map (fun x => normalizePackage x.2)) := (hp₂ s₂).map _
      rw [mapEquiv_map_norm hm] at t₁
      exact t₁.trans t₂.symm

/-- C9 witness: the amended run-equivalence theorem applied to a concrete
one-file directory, with identity and reversal as the two map-iteration
orders. -/
theorem listPackages_c9_witness :
    (listPackages "." [⟨"p/a.go", false, none, some "",
        some ⟨"p", ["\"x\"", "\"y\""], []⟩⟩] false id id).2 =
      (listPackages "." [⟨"p/a.go", false, none, some "",
        some ⟨"p", ["\"x\"", "\"y\""], []⟩⟩] false List.reverse List.reverse).2 ∧
    Multiset.ofList ((listPackages "." [⟨"p/a.go", false, none, some "",
        some ⟨"p", ["\"x\"", "\"y\""], []⟩⟩] false id id).1.map normalizePackage) =
      Multiset.ofList ((listPackages "." [⟨"p/a.go", false, none, some "",
        some ⟨"p", ["\"x\"", "\"y\""], []⟩⟩] false List.reverse List.reverse).1.map
          normalizePackage) :=
  ⟨(listPackages_c9_amended "." _ false id List.reverse id List.reverse
      (fun l => List.Perm.refl l) (fun l => List.reverse_perm l)
      (fun m => List.Perm.refl m) (fun m => List.reverse_perm m)).2.1,
   (listPackages_c9_amended "." _ false id List.reverse id List.reverse
      (fun l => List.Perm.refl l) (fun l => List.reverse_perm l)
      (fun m => List.Perm.refl m) (fun m => List.reverse_perm m)).2.2⟩

end Gocp
